import Mathlib

/-!
Verification development for the `Python-MAS` pollution simulation
(`src/agents.py`).  The model is shallowly embedded: the Mesa model's
agent population is a list of agents in registration order (each
`PollutionCell` carries its `pollution` attribute, a rational standing
for the Python float), and one simulation tick is Mesa's
`SimultaneousActivation.step`: call `step()` on every agent in
registration order, then call `advance()` on every agent.
Randomness (`random.choice`, `random.randrange`) is modelled by an
ambient seed stream `seeds : Nat → Nat`; a draw with `n` possible
outcomes uses the next seed reduced modulo `n`, and the Python
exceptions (`IndexError` from `random.choice` on an empty sequence,
`ValueError` from `randrange` on an empty range) are the error values.
-/

deriving instance DecidableEq for Except

namespace PollutionMAS

/-- Exceptions the Python code can raise during construction or a tick. -/
inductive PyError
  | valueError
  | indexError
deriving DecidableEq

/-- Grid coordinates, as in `mesa.space.MultiGrid` (integer pairs). -/
abbrev Pos := Int × Int

/-- Offsets of the Moore neighborhood of radius 1, center excluded, as
enumerated by `MultiGrid.get_neighborhood(pos, moore=True,
include_center=False)`. -/
def mooreOffsets : List (Int × Int) :=
  [(-1, -1), (0, -1), (1, -1), (-1, 0), (1, 0), (-1, 1), (0, 1), (1, 1)]

/-- Bounds check of `mesa.space.Grid.out_of_bounds`, negated: a position
is kept when `0 ≤ x < width` and `0 ≤ y < height` (the grid is built
with `torus=False`, so there is no wraparound). -/
def inBounds (w h : Int) (p : Pos) : Bool :=
  decide (0 ≤ p.1) && decide (p.1 < w) && decide (0 ≤ p.2) && decide (p.2 < h)

/-- `MultiGrid.get_neighborhood(pos, moore=True, include_center=False)`
with `torus=False`: the in-bounds Moore-adjacent positions, clipped at
the edges. -/
def get_neighborhood (w h : Int) (p : Pos) : List Pos :=
  (mooreOffsets.map fun d => (p.1 + d.1, p.2 + d.2)).filter (inBounds w h)

/-- One agent of the model, tagged by kind, carrying exactly the mutable
attributes the Python classes hold: a `PollutionCell` its position and
`pollution`, a `CarAgent` its `unique_id` and position, a `FactoryAgent`
its `unique_id` and position, a `TreeAgent` its `unique_id`, position
and `alive` flag. -/
inductive AgentK
  | cell (pos : Pos) (pollution : ℚ)
  | car (id : Nat) (pos : Pos)
  | factory (id : Nat) (pos : Pos)
  | tree (id : Nat) (pos : Pos) (alive : Bool)
deriving DecidableEq

namespace AgentK

/-- Kind test used when translating the `isinstance(agent, PollutionCell)`
checks of the source. -/
def isCellA : AgentK → Bool
  | .cell _ _ => true
  | _ => false

def isCarA : AgentK → Bool
  | .car _ _ => true
  | _ => false

def isFactoryA : AgentK → Bool
  | .factory _ _ => true
  | _ => false

def isTreeA : AgentK → Bool
  | .tree _ _ _ => true
  | _ => false

end AgentK

open AgentK

/-- Pollution values of the `PollutionCell` agents located at position
`q`, in registration order — the contents seen by
`grid.get_cell_list_contents(q)` filtered by
`isinstance(agent, PollutionCell)`.  (The constructed model places
exactly one cell per in-bounds position, but the embedding keeps the
general multiset semantics of `MultiGrid`.) -/
def cellValuesAt (agents : List AgentK) (q : Pos) : List ℚ :=
  agents.filterMap fun a =>
    match a with
    | .cell p v => if p = q then some v else none
    | _ => none

/-- Sum of the pollution of all `PollutionCell`s at `q`, as accumulated
by the comprehension in `PollutionCell.step`. -/
def cellSumAt (agents : List AgentK) (q : Pos) : ℚ :=
  (cellValuesAt agents q).sum

/-- Effect of `agent.pollution += amt` applied to every `PollutionCell`
at position `q` (the loops in `CarAgent.step` and `FactoryAgent.step`). -/
def addPollutionAt (agents : List AgentK) (q : Pos) (amt : ℚ) : List AgentK :=
  agents.map fun a =>
    match a with
    | .cell p v => if p = q then .cell p (v + amt) else .cell p v
    | other => other

/-- Effect of `agent.pollution *= c` applied to every `PollutionCell` at
position `q` (the mitigation loop in `TreeAgent.step`). -/
def scalePollutionAt (agents : List AgentK) (q : Pos) (c : ℚ) : List AgentK :=
  agents.map fun a =>
    match a with
    | .cell p v => if p = q then .cell p (v * c) else .cell p v
    | other => other

/-- The `step()` method of the agent stored at index `k` of the
registration-order agent list, acting on the shared model state.
`i` counts the random draws made so far in this tick (only
`CarAgent.step` draws).  Mirrors, per kind:
`PollutionCell.step` (read the live neighbors, overwrite own
`pollution` with `(Σ neighbors + own) / (len(neighbors) + 1)`),
`CarAgent.step` (`random.choice` over the Moore neighborhood —
`IndexError` when it is empty — then `move_agent` and `+= 10` on the
cells at the new position), `FactoryAgent.step` (`+= 20` at its fixed
position), and `TreeAgent.step` (if `alive`: `*= 0.7` on its cell, then
die iff some cell at its position now exceeds 30). -/
def stepAt (w h : Int) (seeds : Nat → Nat) (i : Nat) (agents : List AgentK)
    (k : Nat) : Except PyError (List AgentK × Nat) :=
  match agents[k]? with
  | none => .ok (agents, i)
  | some (.cell p v) =>
      let ns := get_neighborhood w h p
      let total := (ns.map (cellSumAt agents)).sum + v
      .ok (agents.set k (.cell p (total / ((ns.length : ℚ) + 1))), i)
  | some (.car id pos) =>
      let moves := get_neighborhood w h pos
      if hm : moves.length = 0 then .error .indexError
      else
        let newPos := moves.get ⟨seeds i % moves.length, Nat.mod_lt _ (Nat.pos_of_ne_zero hm)⟩
        .ok (addPollutionAt (agents.set k (.car id newPos)) newPos 10, i + 1)
  | some (.factory _ pos) => .ok (addPollutionAt agents pos 20, i)
  | some (.tree id pos alive) =>
      if alive then
        let a1 := scalePollutionAt agents pos (7 / 10)
        let dies := (cellValuesAt a1 pos).any fun v => decide (30 < v)
        .ok (a1.set k (.tree id pos (!dies)), i)
      else .ok (agents, i)

/-- First loop of `SimultaneousActivation.step`: call `step()` on the
agents at the given indices, left to right, threading the mutated state
and the random-draw counter, and propagating the first exception. -/
def stepIndices (w h : Int) (seeds : Nat → Nat) :
    List Nat → Nat → List AgentK → Except PyError (List AgentK × Nat)
  | [], i, agents => .ok (agents, i)
  | k :: ks, i, agents =>
      match stepAt w h seeds i agents k with
      | .error e => .error e
      | .ok (a1, i1) => stepIndices w h seeds ks i1 a1

/-- The `advance()` method: `PollutionCell.advance` multiplies its own
`pollution` by 0.9; every other kind inherits the no-op `advance`. -/
def advanceAgent : AgentK → AgentK
  | .cell p v => .cell p (v * (9 / 10))
  | other => other

/-- Second loop of `SimultaneousActivation.step`: `advance()` on every
agent; each call touches only that agent, so the loop is the map. -/
def advancePhase (agents : List AgentK) : List AgentK :=
  agents.map advanceAgent

/-- `SimultaneousActivation.step()`: `step()` on every agent in
registration order (the scheduler snapshots the key list, and the agent
count never changes during a tick), then `advance()` on every agent. -/
def scheduleStep (w h : Int) (seeds : Nat → Nat) (agents : List AgentK) :
    Except PyError (List AgentK) :=
  match stepIndices w h seeds (List.range agents.length) 0 agents with
  | .error e => .error e
  | .ok (a1, _) => .ok (advancePhase a1)

/-- The model state: grid dimensions and the agent population in
registration order, as held by `PollutionModel`. -/
structure PollutionModel where
  width : Int
  height : Int
  agents : List AgentK
deriving DecidableEq

/-- `PollutionModel.step` without the data collection: one scheduler
tick over the model's agents. -/
def tick (m : PollutionModel) (seeds : Nat → Nat) : Except PyError PollutionModel :=
  match scheduleStep m.width m.height seeds m.agents with
  | .error e => .error e
  | .ok a1 => .ok { m with agents := a1 }

/-! ### Construction (`PollutionModel.__init__`) -/

/-- Python's `random.randrange(n)`: uniform over `[0, n)`, `ValueError`
when the range is empty; the uniform draw is modelled as the next seed
reduced modulo `n`. -/
def randrange (n : Int) (seed : Nat) : Except PyError Int :=
  if 0 < n then .ok ((seed : Int) % n) else .error .valueError

/-- The pair `self.random.randrange(width), self.random.randrange(height)`
used to place a car, factory or tree (width drawn first). -/
def randPos (w h : Int) (sx sy : Nat) : Except PyError Pos :=
  match randrange w sx with
  | .error e => .error e
  | .ok x =>
      match randrange h sy with
      | .error e => .error e
      | .ok y => .ok (x, y)

/-- Random positions for `count` agents, agent `j` consuming seeds
`base + 2*j` and `base + 2*j + 1` (each placement draws twice). -/
def placePositions (w h : Int) (seeds : Nat → Nat) :
    Nat → Nat → Except PyError (List Pos)
  | 0, _ => .ok []
  | n + 1, base =>
      match randPos w h (seeds base) (seeds (base + 1)) with
      | .error e => .error e
      | .ok p =>
          match placePositions w h seeds n (base + 2) with
          | .error e => .error e
          | .ok ps => .ok (p :: ps)

/-- Cell creation order of `__init__`: `for x in range(width): for y in
range(height)`. -/
def gridPositions (w h : Int) : List Pos :=
  (List.range w.toNat).flatMap fun x =>
    (List.range h.toNat).map fun y => ((x : Int), (y : Int))

/-- `PollutionModel.__init__(width, height, num_cars, num_factories,
num_trees)`: register one `PollutionCell` per grid position, then the
cars (ids `0..num_cars-1`), factories (ids continuing), and trees (ids
continuing, `alive = True`), each placed at an independently drawn
random position.  No argument validation is performed. -/
def newModel (w h : Int) (numCars numFactories numTrees : Nat)
    (seeds : Nat → Nat) : Except PyError PollutionModel :=
  match placePositions w h seeds numCars 0 with
  | .error e => .error e
  | .ok carPs =>
      match placePositions w h seeds numFactories (2 * numCars) with
      | .error e => .error e
      | .ok facPs =>
          match placePositions w h seeds numTrees (2 * numCars + 2 * numFactories) with
          | .error e => .error e
          | .ok treePs =>
              .ok { width := w, height := h,
                    agents :=
                      ((gridPositions w h).map fun p => AgentK.cell p 0)
                      ++ (((List.range numCars).zip carPs).map fun pr =>
                            AgentK.car pr.1 pr.2)
                      ++ (((List.range numFactories).zip facPs).map fun pr =>
                            AgentK.factory (numCars + pr.1) pr.2)
                      ++ (((List.range numTrees).zip treePs).map fun pr =>
                            AgentK.tree (numCars + numFactories + pr.1) pr.2 true) }

/-! ### Metrics (`DataCollector`) -/

/-- Pollution values of all `PollutionCell`s, in registration order. -/
def cellValues (agents : List AgentK) : List ℚ :=
  agents.filterMap fun a =>
    match a with
    | .cell _ v => some v
    | _ => none

/-- `PollutionModel.average_pollution`: total pollution over the cell
count, `0` when there are no cells. -/
def average_pollution (m : PollutionModel) : ℚ :=
  let total := (cellValues m.agents).sum
  let count := (cellValues m.agents).length
  if 0 < count then total / (count : ℚ) else 0

/-- The `isinstance(agent, TreeAgent) and agent.alive` test. -/
def isAliveTree : AgentK → Bool
  | .tree _ _ alive => alive
  | _ => false

/-- The `isinstance(agent, TreeAgent) and not agent.alive` test. -/
def isDeadTree : AgentK → Bool
  | .tree _ _ alive => !alive
  | _ => false

/-- `PollutionModel.tree_growth_rate`: the number of `TreeAgent`s with
`alive = True`. -/
def tree_growth_rate (m : PollutionModel) : Nat :=
  (m.agents.filter isAliveTree).length

/-- `PollutionModel.tree_death_rate`: the number of `TreeAgent`s with
`alive = False`. -/
def tree_death_rate (m : PollutionModel) : Nat :=
  (m.agents.filter isDeadTree).length

/-- One row collected by the `DataCollector`'s model reporters. -/
structure Metrics where
  averagePollution : ℚ
  treeGrowthRate : Nat
  treeDeathRate : Nat
deriving DecidableEq

/-- The three model reporters evaluated on the current state. -/
def collect (m : PollutionModel) : Metrics :=
  ⟨average_pollution m, tree_growth_rate m, tree_death_rate m⟩

/-- Model plus the `DataCollector`'s accumulated rows. -/
structure SimState where
  model : PollutionModel
  history : List Metrics
deriving DecidableEq

/-- `PollutionModel.step`: `datacollector.collect(self)` (recording the
pre-mutation state), then `schedule.step()`. -/
def modelStep (s : SimState) (seeds : Nat → Nat) : Except PyError SimState :=
  match tick s.model seeds with
  | .error e => .error e
  | .ok m1 => .ok ⟨m1, s.history ++ [collect s.model]⟩

/-- Run `n` consecutive ticks, tick `t` using seed stream `seedss t`. -/
def runTicks (seedss : Nat → Nat → Nat) : Nat → PollutionModel → Except PyError PollutionModel
  | 0, m => .ok m
  | n + 1, m =>
      match tick m (seedss 0) with
      | .error e => .error e
      | .ok m1 => runTicks (fun t => seedss (t + 1)) n m1

/-- Modelled from the spec: the snapshot-based simultaneous diffusion of
§4.2.1 — every cell's new pollution is computed from the pre-phase
values of all cells.  The source has no such snapshot (each
`PollutionCell.step` writes `self.pollution` while later cells are still
reading); this definition follows the spec's words so the two can be
compared. -/
def diffuseSnapshot (w h : Int) (agents : List AgentK) : List AgentK :=
  agents.map fun a =>
    match a with
    | .cell p v =>
        let ns := get_neighborhood w h p
        .cell p (((ns.map (cellSumAt agents)).sum + v) / ((ns.length : ℚ) + 1))
    | other => other

/-- View of the Tree population: `(unique_id, position, alive)` of every
`TreeAgent`, in registration order. -/
def treesOf (agents : List AgentK) : List (Nat × Pos × Bool) :=
  agents.filterMap fun a =>
    match a with
    | .tree id pos alive => some (id, pos, alive)
    | _ => none

/-- Test applied to the agent registered at index `k`. -/
def predAt (agents : List AgentK) (pred : AgentK → Bool) (k : Nat) : Bool :=
  match agents[k]? with
  | some a => pred a
  | none => false

/-- Indices (in registration order) of the agents of one kind. -/
def kindIndices (agents : List AgentK) (pred : AgentK → Bool) : List Nat :=
  (List.range agents.length).filter (predAt agents pred)

/-- Modelled from the spec (§4.6): one tick as the explicitly kind-major
protocol — every `PollutionCell` steps, then every Car, then every
Factory, then every Tree, each kind in registration order with the
mutated state threaded through, and afterwards every cell decays.  To be
compared with `scheduleStep`, which iterates the single registration
list. -/
def kindMajorStep (w h : Int) (seeds : Nat → Nat) (agents : List AgentK) :
    Except PyError (List AgentK) :=
  match stepIndices w h seeds
      (kindIndices agents isCellA ++ kindIndices agents isCarA
        ++ kindIndices agents isFactoryA ++ kindIndices agents isTreeA) 0 agents with
  | .error e => .error e
  | .ok (a1, _) => .ok (advancePhase a1)

/-! ### Helper lemmas -/

theorem filterMap_congr_fun {α β : Type _} {f g : α → Option β} (l : List α)
    (h : ∀ a ∈ l, f a = g a) : l.filterMap f = l.filterMap g := by
  induction l with
  | nil => rfl
  | cons a t ih =>
      rw [List.filterMap_cons, List.filterMap_cons, h a (List.mem_cons_self a t),
        ih fun b hb => h b (List.mem_cons_of_mem a hb)]

theorem cellValuesAt_add_self (l : List AgentK) (q : Pos) (amt : ℚ) :
    cellValuesAt (addPollutionAt l q amt) q = (cellValuesAt l q).map (fun v => v + amt) := by
  unfold cellValuesAt addPollutionAt
  rw [List.filterMap_map, List.map_filterMap]
  apply filterMap_congr_fun
  intro a _
  cases a with
  | cell p v => by_cases hp : p = q <;> simp [Function.comp, hp]
  | car id pos => rfl
  | factory id pos => rfl
  | tree id pos alive => rfl

theorem cellValuesAt_add_ne (l : List AgentK) (q r : Pos) (amt : ℚ) (h : r ≠ q) :
    cellValuesAt (addPollutionAt l q amt) r = cellValuesAt l r := by
  unfold cellValuesAt addPollutionAt
  rw [List.filterMap_map]
  apply filterMap_congr_fun
  intro a _
  cases a with
  | cell p v =>
      by_cases hp : p = q
      · have hqr : ¬ (q = r) := fun hh => h hh.symm
        simp [Function.comp, hp, hqr]
      · simp [Function.comp, hp]
  | car id pos => rfl
  | factory id pos => rfl
  | tree id pos alive => rfl

theorem cellValuesAt_scale_self (l : List AgentK) (q : Pos) (c : ℚ) :
    cellValuesAt (scalePollutionAt l q c) q = (cellValuesAt l q).map (fun v => v * c) := by
  unfold cellValuesAt scalePollutionAt
  rw [List.filterMap_map, List.map_filterMap]
  apply filterMap_congr_fun
  intro a _
  cases a with
  | cell p v => by_cases hp : p = q <;> simp [Function.comp, hp]
  | car id pos => rfl
  | factory id pos => rfl
  | tree id pos alive => rfl

theorem cellValuesAt_scale_ne (l : List AgentK) (q r : Pos) (c : ℚ) (h : r ≠ q) :
    cellValuesAt (scalePollutionAt l q c) r = cellValuesAt l r := by
  unfold cellValuesAt scalePollutionAt
  rw [List.filterMap_map]
  apply filterMap_congr_fun
  intro a _
  cases a with
  | cell p v =>
      by_cases hp : p = q
      · have hqr : ¬ (q = r) := fun hh => h hh.symm
        simp [Function.comp, hp, hqr]
      · simp [Function.comp, hp]
  | car id pos => rfl
  | factory id pos => rfl
  | tree id pos alive => rfl

theorem cellValuesAt_cons_noncell (a : AgentK) (ha : isCellA a = false)
    (t : List AgentK) (q : Pos) :
    cellValuesAt (a :: t) q = cellValuesAt t q := by
  cases a with
  | cell p v => simp [isCellA] at ha
  | car id pos => rfl
  | factory id pos => rfl
  | tree id pos alive => rfl

theorem cellValuesAt_set_noncell (b : AgentK) (hb : isCellA b = false) (q : Pos) :
    ∀ (l : List AgentK) (k : Nat) (a : AgentK), l[k]? = some a → isCellA a = false →
      cellValuesAt (l.set k b) q = cellValuesAt l q := by
  intro l
  induction l with
  | nil => intro k a hk _; simp at hk
  | cons x t ih =>
      intro k a hk ha
      cases k with
      | zero =>
          simp only [List.getElem?_cons_zero, Option.some.injEq] at hk
          subst hk
          rw [List.set_cons_zero, cellValuesAt_cons_noncell b hb,
            cellValuesAt_cons_noncell x ha]
      | succ k' =>
          simp only [List.getElem?_cons_succ] at hk
          rw [List.set_cons_succ]
          cases x with
          | cell p v =>
              unfold cellValuesAt
              rw [List.filterMap_cons, List.filterMap_cons]
              have ht := ih k' a hk ha
              unfold cellValuesAt at ht
              rw [ht]
          | car id pos =>
              rw [cellValuesAt_cons_noncell (AgentK.car id pos) rfl,
                cellValuesAt_cons_noncell (AgentK.car id pos) rfl, ih k' a hk ha]
          | factory id pos =>
              rw [cellValuesAt_cons_noncell (AgentK.factory id pos) rfl,
                cellValuesAt_cons_noncell (AgentK.factory id pos) rfl, ih k' a hk ha]
          | tree id pos alive =>
              rw [cellValuesAt_cons_noncell (AgentK.tree id pos alive) rfl,
                cellValuesAt_cons_noncell (AgentK.tree id pos alive) rfl, ih k' a hk ha]

/-! ### Claim C1 -/

/-- C1: the claim states that during the diffusion phase every
`PollutionCell` computes its new pollution exclusively from the pre-tick
snapshot, so the post-diffusion field is the same under every
permutation of the per-cell processing order.  The code instead reads
the live, already-mutated values: on a 2×1 grid with pollution 2 at
(0,0) and 0 at (1,0), processing the cells in registration order yields
(1, 1/2), processing them in the reverse order yields (3/2, 1), and the
snapshot rule the claim describes yields (1, 1) — the phase is a
sequential relaxation, not a simultaneous one. -/
theorem diffusion_reads_live_values :
    stepIndices 2 1 (fun _ => 0) [0, 1] 0 [.cell (0, 0) 2, .cell (1, 0) 0]
      = .ok ([.cell (0, 0) 1, .cell (1, 0) (1 / 2)], 0)
    ∧ stepIndices 2 1 (fun _ => 0) [1, 0] 0 [.cell (0, 0) 2, .cell (1, 0) 0]
      = .ok ([.cell (0, 0) (3 / 2), .cell (1, 0) 1], 0)
    ∧ diffuseSnapshot 2 1 [.cell (0, 0) 2, .cell (1, 0) 0]
      = [.cell (0, 0) 1, .cell (1, 0) 1] := by
  refine ⟨?_, ?_, ?_⟩
  · norm_num +decide [stepIndices, stepAt, get_neighborhood, mooreOffsets, inBounds,
      cellSumAt, cellValuesAt, List.filterMap_cons]
  · norm_num +decide [stepIndices, stepAt, get_neighborhood, mooreOffsets, inBounds,
      cellSumAt, cellValuesAt, List.filterMap_cons]
  · norm_num +decide [diffuseSnapshot, get_neighborhood, mooreOffsets, inBounds,
      cellSumAt, cellValuesAt, List.filterMap_cons]

/-! ### Claim C4 -/

/-- Counterexample to C4: constructing a model with `width = 0` and
`height = 0` (both non-positive) and all counts zero succeeds — no
`InvalidConfigError` (or any error) is raised, and the simulation can
start. -/
theorem newModel_accepts_nonpositive_dims :
    newModel 0 0 0 0 0 (fun _ => 0) = .ok ⟨0, 0, []⟩ := by decide

theorem gridPositions_eq_nil (w h : Int) (hw : w ≤ 0 ∨ h ≤ 0) :
    gridPositions w h = [] := by
  rcases hw with hw | hh
  · simp [gridPositions, Int.toNat_of_nonpos hw]
  · simp [gridPositions, Int.toNat_of_nonpos hh]

theorem randPos_err (w h : Int) (hw : w ≤ 0 ∨ h ≤ 0) (sx sy : Nat) :
    randPos w h sx sy = .error .valueError := by
  rcases hw with hw | hh
  · simp [randPos, randrange, show ¬ 0 < w by omega]
  · by_cases h0 : 0 < w
    · simp [randPos, randrange, h0, show ¬ 0 < h by omega]
    · simp [randPos, randrange, h0]

theorem placePositions_err (w h : Int) (hw : w ≤ 0 ∨ h ≤ 0) (s : Nat → Nat)
    (n base : Nat) (hn : 0 < n) :
    placePositions w h s n base = .error .valueError := by
  cases n with
  | zero => omega
  | succ n' => simp [placePositions, randPos_err w h hw]

/-- C4 (amended): construction performs no validation at all — there is
no `InvalidConfigError` in the program.  With `width ≤ 0` or
`height ≤ 0` and all counts zero, construction succeeds with an empty
agent population; with any positive car count it instead fails with the
`ValueError` that `random.randrange` raises on an empty range. -/
theorem newModel_no_validation (w h : Int) (s : Nat → Nat) (hw : w ≤ 0 ∨ h ≤ 0) :
    newModel w h 0 0 0 s = .ok ⟨w, h, []⟩
    ∧ ∀ nc nf nt : Nat, 0 < nc → newModel w h nc nf nt s = .error .valueError := by
  constructor
  · simp [newModel, placePositions, gridPositions_eq_nil w h hw]
  · intro nc nf nt hnc
    simp [newModel, placePositions_err w h hw s nc 0 hnc]

/-- C4 witness: the amended behavior at the concrete inputs
`(0, 0, 0, 0, 0)` (succeeds) and `(0, 0, 1, 0, 0)` (ValueError). -/
theorem newModel_no_validation_witness :
    newModel 0 0 0 0 0 (fun _ => 1) = .ok ⟨0, 0, []⟩
    ∧ newModel 0 0 1 0 0 (fun _ => 1) = .error .valueError := by
  have h := newModel_no_validation 0 0 (fun _ => 1) (Or.inl le_rfl)
  exact ⟨h.1, h.2 1 0 0 Nat.one_pos⟩

/-! ### Claim C6 -/

/-- C6: a Factory's `step` adds exactly 20 to the pollution of every
`PollutionCell` at its fixed position (there is exactly one in a
constructed model), changes no other cell, consumes no randomness, and
leaves the Factory itself — in particular its position — unchanged. -/
theorem factory_emits_twenty (w h : Int) (seeds : Nat → Nat) (i k : Nat)
    (agents : List AgentK) (id : Nat) (pos : Pos)
    (hk : agents[k]? = some (.factory id pos)) :
    stepAt w h seeds i agents k = .ok (addPollutionAt agents pos 20, i)
    ∧ cellValuesAt (addPollutionAt agents pos 20) pos
        = (cellValuesAt agents pos).map (fun v => v + 20)
    ∧ (∀ q : Pos, q ≠ pos →
        cellValuesAt (addPollutionAt agents pos 20) q = cellValuesAt agents q)
    ∧ (addPollutionAt agents pos 20)[k]? = some (.factory id pos) := by
  refine ⟨?_, cellValuesAt_add_self agents pos 20,
    fun q hq => cellValuesAt_add_ne agents pos q 20 hq, ?_⟩
  · simp [stepAt, hk]
  · unfold addPollutionAt
    rw [List.getElem?_map, hk]
    rfl

/-- C6 witness: a factory with pre-emission pollution 5 at its cell
yields exactly 25 there before decay. -/
theorem factory_emits_twenty_witness :
    stepAt 1 1 (fun _ => 0) 0 [.cell (0, 0) 5, .factory 3 (0, 0)] 1
      = .ok (addPollutionAt [.cell (0, 0) 5, .factory 3 (0, 0)] (0, 0) 20, 0)
    ∧ addPollutionAt [.cell (0, 0) 5, .factory 3 (0, 0)] (0, 0) 20
      = [.cell (0, 0) 25, .factory 3 (0, 0)] := by
  have h := factory_emits_twenty 1 1 (fun _ => 0) 0 1
    [.cell (0, 0) 5, .factory 3 (0, 0)] 3 (0, 0) (by decide)
  exact ⟨h.1, by norm_num +decide [addPollutionAt]⟩

/-! ### Claim C5 -/

/-- C5: a Car's `step` picks the position at index `seed mod n` of its
current Moore neighborhood (Python's `random.choice` picks a uniform
index, so for a uniform seed the position is uniform over the — possibly
edge-clipped — neighborhood), moves the Car there, adds exactly 10 to
the pollution of every `PollutionCell` at the new position (exactly one
in a constructed model), and changes no other cell; the mutation is in
place, hence visible to all later-processed agents of the same tick. -/
theorem car_moves_then_pollutes (w h : Int) (seeds : Nat → Nat) (i k : Nat)
    (agents : List AgentK) (id : Nat) (pos : Pos)
    (hk : agents[k]? = some (.car id pos))
    (hne : get_neighborhood w h pos ≠ []) :
    ∃ (newPos : Pos) (a1 : List AgentK),
      stepAt w h seeds i agents k = .ok (a1, i + 1)
      ∧ newPos = (get_neighborhood w h pos).getD
          (seeds i % (get_neighborhood w h pos).length) pos
      ∧ newPos ∈ get_neighborhood w h pos
      ∧ a1[k]? = some (.car id newPos)
      ∧ cellValuesAt a1 newPos = (cellValuesAt agents newPos).map (fun v => v + 10)
      ∧ ∀ q : Pos, q ≠ newPos → cellValuesAt a1 q = cellValuesAt agents q := by
  have hlen : (get_neighborhood w h pos).length ≠ 0 := by
    intro h0
    exact hne (List.length_eq_zero.mp h0)
  have hlt : seeds i % (get_neighborhood w h pos).length
      < (get_neighborhood w h pos).length :=
    Nat.mod_lt _ (Nat.pos_of_ne_zero hlen)
  have hkb : k < agents.length := by
    rcases List.getElem?_eq_some_iff.mp hk with ⟨hb, _⟩
    exact hb
  obtain ⟨np, hnp⟩ :
      ∃ np, (get_neighborhood w h pos).get
        ⟨seeds i % (get_neighborhood w h pos).length, hlt⟩ = np := ⟨_, rfl⟩
  refine ⟨np, addPollutionAt (agents.set k (.car id np)) np 10, ?_, ?_, ?_, ?_, ?_, ?_⟩
  · simp only [stepAt, hk]
    rw [dif_neg hlen, ← hnp]
  · rw [← hnp, List.getD_eq_getElem?_getD, List.getElem?_eq_getElem hlt]
    rfl
  · rw [← hnp]
    exact List.get_mem _ _ _
  · unfold addPollutionAt
    rw [List.getElem?_map, List.getElem?_set_self (by simpa using hkb)]
    rfl
  · rw [cellValuesAt_add_self,
      cellValuesAt_set_noncell (AgentK.car id np) rfl np agents k (AgentK.car id pos) hk rfl]
  · intro q hq
    rw [cellValuesAt_add_ne _ _ _ _ hq,
      cellValuesAt_set_noncell (AgentK.car id np) rfl q agents k (AgentK.car id pos) hk rfl]

/-- C5 witness: on a 2×1 grid a car at (0,0) has the single-element
neighborhood [(1,0)]; with seed 0 it moves there and raises that cell's
pollution from 4 to 14. -/
theorem car_moves_then_pollutes_witness :
    ∃ (newPos : Pos) (a1 : List AgentK),
      stepAt 2 1 (fun _ => 0) 0 [.cell (0, 0) 3, .cell (1, 0) 4, .car 9 (0, 0)] 2
        = .ok (a1, 0 + 1)
      ∧ newPos = (get_neighborhood 2 1 (0, 0)).getD
          ((fun _ : Nat => 0) 0 % (get_neighborhood 2 1 (0, 0)).length) (0, 0)
      ∧ newPos ∈ get_neighborhood 2 1 (0, 0)
      ∧ a1[2]? = some (.car 9 newPos)
      ∧ cellValuesAt a1 newPos
        = (cellValuesAt [.cell (0, 0) 3, .cell (1, 0) 4, .car 9 (0, 0)] newPos).map
            (fun v => v + 10)
      ∧ ∀ q : Pos, q ≠ newPos →
          cellValuesAt a1 q
            = cellValuesAt [.cell (0, 0) 3, .cell (1, 0) 4, .car 9 (0, 0)] q :=
  car_moves_then_pollutes 2 1 (fun _ => 0) 0 2
    [.cell (0, 0) 3, .cell (1, 0) 4, .car 9 (0, 0)] 9 (0, 0) (by decide) (by decide)

/-! ### Claim C3 -/

theorem addPollutionAt_getElem?_tree {l : List AgentK} {k : Nat} {id : Nat}
    {pos : Pos} {al : Bool} (hk : l[k]? = some (.tree id pos al)) (q : Pos) (amt : ℚ) :
    (addPollutionAt l q amt)[k]? = some (.tree id pos al) := by
  unfold addPollutionAt
  rw [List.getElem?_map, hk]
  rfl

theorem scalePollutionAt_getElem?_tree {l : List AgentK} {k : Nat} {id : Nat}
    {pos : Pos} {al : Bool} (hk : l[k]? = some (.tree id pos al)) (q : Pos) (c : ℚ) :
    (scalePollutionAt l q c)[k]? = some (.tree id pos al) := by
  unfold scalePollutionAt
  rw [List.getElem?_map, hk]
  rfl

/-- A dead tree's list entry survives the `step()` of any single agent
unchanged: no `step` method writes to another agent, cell updates only
touch `PollutionCell`s, and the dead tree's own `step` is a no-op. -/
theorem stepAt_dead_tree {w h : Int} {seeds : Nat → Nat} {i j : Nat}
    {agents a1 : List AgentK} {i1 k id : Nat} {pos : Pos}
    (hstep : stepAt w h seeds i agents j = .ok (a1, i1))
    (hk : agents[k]? = some (.tree id pos false)) :
    a1[k]? = some (.tree id pos false) := by
  have hne : ∀ (x : AgentK), agents[j]? = some x → x ≠ .tree id pos false → j ≠ k := by
    intro x hx hxne hjk
    subst hjk
    rw [hx] at hk
    exact hxne (Option.some.inj hk)
  unfold stepAt at hstep
  split at hstep
  · simp only [Except.ok.injEq, Prod.mk.injEq] at hstep
    rw [← hstep.1]
    exact hk
  case _ p v heq =>
    simp only [Except.ok.injEq, Prod.mk.injEq] at hstep
    rw [← hstep.1]
    rw [List.getElem?_set_ne (hne _ heq (by simp))]
    exact hk
  case _ cid cpos heq =>
    dsimp only at hstep
    split at hstep
    · simp at hstep
    · simp only [Except.ok.injEq, Prod.mk.injEq] at hstep
      rw [← hstep.1]
      refine addPollutionAt_getElem?_tree ?_ _ _
      rw [List.getElem?_set_ne (hne _ heq (by simp))]
      exact hk
  case _ fid fpos heq =>
    simp only [Except.ok.injEq, Prod.mk.injEq] at hstep
    rw [← hstep.1]
    exact addPollutionAt_getElem?_tree hk _ _
  case _ tid tpos tal heq =>
    by_cases htal : tal = true
    · subst htal
      rw [if_pos rfl] at hstep
      simp only [Except.ok.injEq, Prod.mk.injEq] at hstep
      rw [← hstep.1]
      by_cases hjk : j = k
      · subst hjk
        rw [heq] at hk
        simp at hk
      · rw [List.getElem?_set_ne hjk]
        exact scalePollutionAt_getElem?_tree hk _ _
    · rw [if_neg (by simpa using htal)] at hstep
      simp only [Except.ok.injEq, Prod.mk.injEq] at hstep
      rw [← hstep.1]
      exact hk

theorem stepIndices_dead_tree {w h : Int} {seeds : Nat → Nat} {ks : List Nat} :
    ∀ {i : Nat} {agents a1 : List AgentK} {i1 k id : Nat} {pos : Pos},
      stepIndices w h seeds ks i agents = .ok (a1, i1) →
      agents[k]? = some (.tree id pos false) →
      a1[k]? = some (.tree id pos false) := by
  induction ks with
  | nil =>
      intro i agents a1 i1 k id pos hstep hk
      simp only [stepIndices, Except.ok.injEq, Prod.mk.injEq] at hstep
      rw [← hstep.1]
      exact hk
  | cons j ks ih =>
      intro i agents a1 i1 k id pos hstep hk
      unfold stepIndices at hstep
      rcases hs : stepAt w h seeds i agents j with e | b
      · rw [hs] at hstep
        simp at hstep
      · rw [hs] at hstep
        exact ih hstep (stepAt_dead_tree hs hk)

theorem advancePhase_getElem?_tree {l : List AgentK} {k : Nat} {id : Nat}
    {pos : Pos} {al : Bool} (hk : l[k]? = some (.tree id pos al)) :
    (advancePhase l)[k]? = some (.tree id pos al) := by
  unfold advancePhase
  rw [List.getElem?_map, hk]
  rfl

theorem tick_dead_tree {m m' : PollutionModel} {seeds : Nat → Nat} {k id : Nat} {pos : Pos}
    (ht : tick m seeds = .ok m') (hk : m.agents[k]? = some (.tree id pos false)) :
    m'.agents[k]? = some (.tree id pos false) := by
  unfold tick scheduleStep at ht
  rcases hs : stepIndices m.width m.height seeds (List.range m.agents.length) 0 m.agents
    with e | b
  · rw [hs] at ht
    simp at ht
  · rw [hs] at ht
    simp only [Except.ok.injEq] at ht
    rw [← ht]
    exact advancePhase_getElem?_tree (stepIndices_dead_tree hs hk)

theorem runTicks_dead_tree {n : Nat} :
    ∀ {ss : Nat → Nat → Nat} {m m' : PollutionModel} {k id : Nat} {pos : Pos},
      runTicks ss n m = .ok m' → m.agents[k]? = some (.tree id pos false) →
      m'.agents[k]? = some (.tree id pos false) := by
  induction n with
  | zero =>
      intro ss m m' k id pos hr hk
      simp only [runTicks, Except.ok.injEq] at hr
      rw [← hr]
      exact hk
  | succ n ih =>
      intro ss m m' k id pos hr hk
      unfold runTicks at hr
      rcases ht : tick m (ss 0) with e | m1
      · rw [ht] at hr
        simp at hr
      · rw [ht] at hr
        exact ih hr (tick_dead_tree ht hk)

/-- C3: a Tree's `step` acts only while `alive`: it multiplies every
co-located `PollutionCell`'s pollution by 0.7 and then sets
`alive = false` exactly when some co-located cell's mitigated pollution
exceeds 30; a dead Tree's `step` is a complete no-op, and a Tree that is
dead stays dead — with its entry, including its grid position, unchanged
— through every subsequent tick. -/
theorem tree_mitigates_then_may_die :
    (∀ (w h : Int) (seeds : Nat → Nat) (i k : Nat) (agents : List AgentK)
        (id : Nat) (pos : Pos),
        agents[k]? = some (.tree id pos false) →
        stepAt w h seeds i agents k = .ok (agents, i))
    ∧ (∀ (w h : Int) (seeds : Nat → Nat) (i k : Nat) (agents : List AgentK)
        (id : Nat) (pos : Pos),
        agents[k]? = some (.tree id pos true) →
        ∃ (a1 : List AgentK) (aliveNew : Bool),
          stepAt w h seeds i agents k = .ok (a1, i)
          ∧ cellValuesAt a1 pos = (cellValuesAt agents pos).map (fun v => v * (7 / 10))
          ∧ (∀ q : Pos, q ≠ pos → cellValuesAt a1 q = cellValuesAt agents q)
          ∧ a1[k]? = some (.tree id pos aliveNew)
          ∧ (aliveNew = false ↔ ∃ v ∈ cellValuesAt agents pos, 30 < v * (7 / 10)))
    ∧ (∀ (ss : Nat → Nat → Nat) (n : Nat) (m m' : PollutionModel) (k id : Nat) (pos : Pos),
        m.agents[k]? = some (.tree id pos false) → runTicks ss n m = .ok m' →
        m'.agents[k]? = some (.tree id pos false)) := by
  refine ⟨?_, ?_, ?_⟩
  · intro w h seeds i k agents id pos hk
    simp only [stepAt, hk, Bool.false_eq_true, if_false]
  · intro w h seeds i k agents id pos hk
    have hkb : k < agents.length := by
      rcases List.getElem?_eq_some_iff.mp hk with ⟨hb, _⟩
      exact hb
    have hscale : (scalePollutionAt agents pos (7 / 10))[k]? = some (.tree id pos true) :=
      scalePollutionAt_getElem?_tree hk _ _
    obtain ⟨dies, hdies⟩ :
        ∃ d, ((cellValuesAt (scalePollutionAt agents pos (7 / 10)) pos).any
          fun v => decide (30 < v)) = d := ⟨_, rfl⟩
    refine ⟨(scalePollutionAt agents pos (7 / 10)).set k (.tree id pos (!dies)), !dies,
      ?_, ?_, ?_, ?_, ?_⟩
    · simp only [stepAt, hk, if_true]
      rw [hdies]
    · rw [cellValuesAt_set_noncell (AgentK.tree id pos (!dies)) rfl pos
        (scalePollutionAt agents pos (7 / 10)) k (AgentK.tree id pos true) hscale rfl]
      exact cellValuesAt_scale_self agents pos (7 / 10)
    · intro q hq
      rw [cellValuesAt_set_noncell (AgentK.tree id pos (!dies)) rfl q
        (scalePollutionAt agents pos (7 / 10)) k (AgentK.tree id pos true) hscale rfl]
      exact cellValuesAt_scale_ne agents pos q (7 / 10) hq
    · rw [List.getElem?_set_self]
      unfold scalePollutionAt
      rw [List.length_map]
      exact hkb
    · rw [Bool.not_eq_false', ← hdies, List.any_eq_true, cellValuesAt_scale_self]
      constructor
      · rintro ⟨x, hx, hx30⟩
        rcases List.mem_map.mp hx with ⟨v, hv, rfl⟩
        exact ⟨v, hv, by simpa using hx30⟩
      · rintro ⟨v, hv, hv30⟩
        exact ⟨v * (7 / 10), List.mem_map.mpr ⟨v, hv, rfl⟩, by simpa using hv30⟩
  · intro ss n m m' k id pos hk hr
    exact runTicks_dead_tree hr hk

/-- C3 witness: a live tree on a cell holding 50 mitigates it to 35 and
dies, and a dead tree's step leaves the model untouched. -/
theorem tree_mitigates_then_may_die_witness :
    stepAt 1 1 (fun _ => 0) 0 [.cell (0, 0) 50, .tree 4 (0, 0) false] 1
      = .ok ([.cell (0, 0) 50, .tree 4 (0, 0) false], 0)
    ∧ ∃ (a1 : List AgentK) (aliveNew : Bool),
        stepAt 1 1 (fun _ => 0) 0 [.cell (0, 0) 50, .tree 4 (0, 0) true] 1
          = .ok (a1, 0)
        ∧ cellValuesAt a1 (0, 0)
          = (cellValuesAt [.cell (0, 0) 50, .tree 4 (0, 0) true] (0, 0)).map
              (fun v => v * (7 / 10))
        ∧ (∀ q : Pos, q ≠ (0, 0) →
            cellValuesAt a1 q = cellValuesAt [.cell (0, 0) 50, .tree 4 (0, 0) true] q)
        ∧ a1[1]? = some (.tree 4 (0, 0) aliveNew)
        ∧ (aliveNew = false ↔
            ∃ v ∈ cellValuesAt [.cell (0, 0) 50, .tree 4 (0, 0) true] (0, 0),
              30 < v * (7 / 10)) := by
  constructor
  · exact tree_mitigates_then_may_die.1 1 1 (fun _ => 0) 0 1
      [.cell (0, 0) 50, .tree 4 (0, 0) false] 4 (0, 0) (by decide)
  · exact tree_mitigates_then_may_die.2.1 1 1 (fun _ => 0) 0 1
      [.cell (0, 0) 50, .tree 4 (0, 0) true] 4 (0, 0) (by decide)

/-! ### Claim C9 -/

theorem placePositions_one_one (s : Nat → Nat) :
    ∀ (n base : Nat), placePositions 1 1 s n base = .ok (List.replicate n ((0 : Int), (0 : Int))) := by
  intro n
  induction n with
  | zero => intro base; rfl
  | succ n ih =>
      intro base
      have hp : randPos 1 1 (s base) (s (base + 1)) = .ok ((0 : Int), (0 : Int)) := by
        simp [randPos, randrange, Int.emod_one]
      simp [placePositions, hp, ih (base + 2), List.replicate_succ]

/-- A model whose agent list starts with one cell followed by a car
whose Moore neighborhood is empty faults with `IndexError` during the
tick: the cell's diffusion succeeds, then `random.choice` on the empty
move list raises. -/
theorem tick_err_of_car_at_one (m : PollutionModel) (c : Pos) (v : ℚ) (id : Nat)
    (pos : Pos) (t : List AgentK)
    (hag : m.agents = .cell c v :: .car id pos :: t)
    (hnb : get_neighborhood m.width m.height pos = [])
    (seeds : Nat → Nat) :
    tick m seeds = .error .indexError := by
  have hrange : List.range (AgentK.cell c v :: AgentK.car id pos :: t).length
      = 0 :: 1 :: List.range' 2 t.length := by
    rw [List.range_eq_range']
    simp only [List.length_cons]
    rfl
  unfold tick scheduleStep
  rw [hag, hrange]
  simp [stepIndices, stepAt, hnb]

/-- C9: every model constructed on a 1×1 grid with at least one car
faults with `IndexError` when a tick runs — the sole cell's non-toroidal
Moore neighborhood is empty, so the first car's `random.choice` has no
candidates. -/
theorem one_by_one_car_tick_faults (nc nf nt : Nat) (s0 : Nat → Nat) (m : PollutionModel)
    (hm : newModel 1 1 nc nf nt s0 = .ok m) (hnc : 0 < nc) (seeds : Nat → Nat) :
    tick m seeds = .error .indexError := by
  obtain ⟨nc', rfl⟩ : ∃ nc', nc = nc' + 1 := ⟨nc - 1, by omega⟩
  simp only [newModel, placePositions_one_one] at hm
  have herm := Except.ok.inj hm
  rw [← herm]
  obtain ⟨rest, hrest⟩ :
      ∃ rest, (((List.range (nc' + 1)).zip
          (List.replicate (nc' + 1) ((0 : Int), (0 : Int)))).map
            fun pr => AgentK.car pr.1 pr.2)
        = AgentK.car 0 ((0 : Int), (0 : Int)) :: rest := by
    rw [List.range_succ_eq_map, List.replicate_succ, List.zip_cons_cons, List.map_cons]
    exact ⟨_, rfl⟩
  generalize hB : (((List.range nf).zip (List.replicate nf ((0 : Int), (0 : Int)))).map
      fun pr => AgentK.factory (nc' + 1 + pr.1) pr.2) = B
  generalize hC : (((List.range nt).zip (List.replicate nt ((0 : Int), (0 : Int)))).map
      fun pr => AgentK.tree (nc' + 1 + nf + pr.1) pr.2 true) = C
  refine tick_err_of_car_at_one _ ((0 : Int), (0 : Int)) 0 0 ((0 : Int), (0 : Int))
    (rest ++ (B ++ C)) ?_ ?_ seeds
  · show List.map (fun p => AgentK.cell p 0) (gridPositions 1 1)
        ++ (((List.range (nc' + 1)).zip
            (List.replicate (nc' + 1) ((0 : Int), (0 : Int)))).map
              fun pr => AgentK.car pr.1 pr.2) ++ B ++ C = _
    rw [hrest,
      show List.map (fun p => AgentK.cell p 0) (gridPositions 1 1)
        = [AgentK.cell ((0 : Int), (0 : Int)) 0] from rfl]
    simp [List.append_assoc]
  · show get_neighborhood 1 1 ((0 : Int), (0 : Int)) = []
    decide

/-- C9 witness: the concrete 1×1 model with one car faults. -/
theorem one_by_one_car_tick_faults_witness :
    tick ⟨1, 1, [.cell (0, 0) 0, .car 0 (0, 0)]⟩ (fun _ => 0) = .error .indexError :=
  one_by_one_car_tick_faults 1 0 0 (fun _ => 0)
    ⟨1, 1, [.cell (0, 0) 0, .car 0 (0, 0)]⟩ (by decide) Nat.one_pos (fun _ => 0)

/-! ### Claim C7 -/

theorem cellValuesAt_subset_cellValues {l : List AgentK} {q : Pos} {v : ℚ}
    (h : v ∈ cellValuesAt l q) : v ∈ cellValues l := by
  unfold cellValuesAt at h
  unfold cellValues
  rcases List.mem_filterMap.mp h with ⟨x, hx, hfx⟩
  refine List.mem_filterMap.mpr ⟨x, hx, ?_⟩
  cases x with
  | cell p pv =>
      have hfx' : (if p = q then some pv else none) = some v := hfx
      show some pv = some v
      by_cases hp : p = q
      · rw [if_pos hp] at hfx'
        exact hfx'
      · rw [if_neg hp] at hfx'
        exact absurd hfx' (by simp)
  | car id pos => exact absurd (show (none : Option ℚ) = some v from hfx) (by simp)
  | factory id pos => exact absurd (show (none : Option ℚ) = some v from hfx) (by simp)
  | tree id pos alive => exact absurd (show (none : Option ℚ) = some v from hfx) (by simp)

theorem cellSumAt_nonneg {l : List AgentK} (hl : ∀ v ∈ cellValues l, 0 ≤ v) (q : Pos) :
    0 ≤ cellSumAt l q :=
  List.sum_nonneg fun v hv => hl v (cellValuesAt_subset_cellValues hv)

theorem cellValue_of_getElem {l : List AgentK} {k : Nat} {p : Pos} {v : ℚ}
    (hk : l[k]? = some (.cell p v)) : v ∈ cellValues l := by
  unfold cellValues
  exact List.mem_filterMap.mpr ⟨.cell p v, List.getElem?_mem hk, rfl⟩

theorem nonneg_set {l : List AgentK} {k : Nat} {a : AgentK}
    (hl : ∀ v ∈ cellValues l, 0 ≤ v)
    (ha : ∀ (p : Pos) (v : ℚ), a = .cell p v → 0 ≤ v) :
    ∀ v ∈ cellValues (l.set k a), 0 ≤ v := by
  intro v hv
  unfold cellValues at hv
  rcases List.mem_filterMap.mp hv with ⟨x, hx, hfx⟩
  rcases List.mem_or_eq_of_mem_set hx with hxl | hxa
  · exact hl v (List.mem_filterMap.mpr ⟨x, hxl, hfx⟩)
  · subst hxa
    cases x with
    | cell p pv =>
        have hv' : v = pv := by simpa using hfx.symm
        subst hv'
        exact ha p v rfl
    | car id pos => exact absurd hfx (by simp)
    | factory id pos => exact absurd hfx (by simp)
    | tree id pos alive => exact absurd hfx (by simp)

theorem nonneg_addPollutionAt {l : List AgentK} {q : Pos} {amt : ℚ}
    (hl : ∀ v ∈ cellValues l, 0 ≤ v) (hamt : 0 ≤ amt) :
    ∀ v ∈ cellValues (addPollutionAt l q amt), 0 ≤ v := by
  intro v hv
  unfold cellValues addPollutionAt at hv
  rw [List.filterMap_map] at hv
  rcases List.mem_filterMap.mp hv with ⟨x, hx, hfx⟩
  cases x with
  | cell p pv =>
      have hpv : 0 ≤ pv := hl pv (List.mem_filterMap.mpr ⟨.cell p pv, hx, rfl⟩)
      by_cases hp : p = q
      · have hv' : v = pv + amt := by
          simp only [Function.comp, hp, if_pos rfl] at hfx
          simpa using hfx.symm
        rw [hv']
        exact add_nonneg hpv hamt
      · have hv' : v = pv := by
          simp only [Function.comp, if_neg hp] at hfx
          simpa using hfx.symm
        rw [hv']
        exact hpv
  | car id pos => exact absurd hfx (by simp [Function.comp])
  | factory id pos => exact absurd hfx (by simp [Function.comp])
  | tree id pos alive => exact absurd hfx (by simp [Function.comp])

theorem nonneg_scalePollutionAt {l : List AgentK} {q : Pos} {c : ℚ}
    (hl : ∀ v ∈ cellValues l, 0 ≤ v) (hc : 0 ≤ c) :
    ∀ v ∈ cellValues (scalePollutionAt l q c), 0 ≤ v := by
  intro v hv
  unfold cellValues scalePollutionAt at hv
  rw [List.filterMap_map] at hv
  rcases List.mem_filterMap.mp hv with ⟨x, hx, hfx⟩
  cases x with
  | cell p pv =>
      have hpv : 0 ≤ pv := hl pv (List.mem_filterMap.mpr ⟨.cell p pv, hx, rfl⟩)
      by_cases hp : p = q
      · have hv' : v = pv * c := by
          simp only [Function.comp, hp, if_pos rfl] at hfx
          simpa using hfx.symm
        rw [hv']
        exact mul_nonneg hpv hc
      · have hv' : v = pv := by
          simp only [Function.comp, if_neg hp] at hfx
          simpa using hfx.symm
        rw [hv']
        exact hpv
  | car id pos => exact absurd hfx (by simp [Function.comp])
  | factory id pos => exact absurd hfx (by simp [Function.comp])
  | tree id pos alive => exact absurd hfx (by simp [Function.comp])

theorem stepAt_nonneg {w h : Int} {seeds : Nat → Nat} {i j : Nat}
    {agents a1 : List AgentK} {i1 : Nat}
    (hstep : stepAt w h seeds i agents j = .ok (a1, i1))
    (hl : ∀ v ∈ cellValues agents, 0 ≤ v) :
    ∀ v ∈ cellValues a1, 0 ≤ v := by
  unfold stepAt at hstep
  split at hstep
  · simp only [Except.ok.injEq, Prod.mk.injEq] at hstep
    rw [← hstep.1]
    exact hl
  case _ p v heq =>
    simp only [Except.ok.injEq, Prod.mk.injEq] at hstep
    rw [← hstep.1]
    refine nonneg_set hl ?_
    intro p' v' he
    cases he
    refine div_nonneg (add_nonneg ?_ (hl v (cellValue_of_getElem heq))) (by positivity)
    exact List.sum_nonneg fun x hx => by
      rcases List.mem_map.mp hx with ⟨q, _, rfl⟩
      exact cellSumAt_nonneg hl q
  case _ cid cpos heq =>
    dsimp only at hstep
    split at hstep
    · simp at hstep
    · simp only [Except.ok.injEq, Prod.mk.injEq] at hstep
      rw [← hstep.1]
      refine nonneg_addPollutionAt (nonneg_set hl ?_) (by norm_num)
      intro p' v' he
      cases he
  case _ fid fpos heq =>
    simp only [Except.ok.injEq, Prod.mk.injEq] at hstep
    rw [← hstep.1]
    exact nonneg_addPollutionAt hl (by norm_num)
  case _ tid tpos tal heq =>
    by_cases htal : tal = true
    · subst htal
      rw [if_pos rfl] at hstep
      simp only [Except.ok.injEq, Prod.mk.injEq] at hstep
      rw [← hstep.1]
      refine nonneg_set (nonneg_scalePollutionAt hl (by norm_num)) ?_
      intro p' v' he
      cases he
    · rw [if_neg (by simpa using htal)] at hstep
      simp only [Except.ok.injEq, Prod.mk.injEq] at hstep
      rw [← hstep.1]
      exact hl

theorem stepIndices_nonneg {w h : Int} {seeds : Nat → Nat} {ks : List Nat} :
    ∀ {i : Nat} {agents a1 : List AgentK} {i1 : Nat},
      stepIndices w h seeds ks i agents = .ok (a1, i1) →
      (∀ v ∈ cellValues agents, 0 ≤ v) → ∀ v ∈ cellValues a1, 0 ≤ v := by
  induction ks with
  | nil =>
      intro i agents a1 i1 hstep hl
      simp only [stepIndices, Except.ok.injEq, Prod.mk.injEq] at hstep
      rw [← hstep.1]
      exact hl
  | cons j ks ih =>
      intro i agents a1 i1 hstep hl
      unfold stepIndices at hstep
      rcases hs : stepAt w h seeds i agents j with e | b
      · rw [hs] at hstep
        simp at hstep
      · rw [hs] at hstep
        exact ih hstep (stepAt_nonneg hs hl)

theorem cellValues_advancePhase (l : List AgentK) :
    cellValues (advancePhase l) = (cellValues l).map (fun v => v * (9 / 10)) := by
  unfold cellValues advancePhase
  rw [List.filterMap_map, List.map_filterMap]
  apply filterMap_congr_fun
  intro a _
  cases a <;> rfl

theorem tick_nonneg {m m' : PollutionModel} {seeds : Nat → Nat}
    (ht : tick m seeds = .ok m') (hl : ∀ v ∈ cellValues m.agents, 0 ≤ v) :
    ∀ v ∈ cellValues m'.agents, 0 ≤ v := by
  unfold tick scheduleStep at ht
  rcases hs : stepIndices m.width m.height seeds (List.range m.agents.length) 0 m.agents
    with e | b
  · rw [hs] at ht
    simp at ht
  · rw [hs] at ht
    simp only [Except.ok.injEq] at ht
    rw [← ht]
    show ∀ v ∈ cellValues (advancePhase b.1), 0 ≤ v
    rw [cellValues_advancePhase]
    intro v hv
    rcases List.mem_map.mp hv with ⟨x, hx, rfl⟩
    have hx0 : 0 ≤ x := stepIndices_nonneg hs hl x hx
    positivity

theorem runTicks_nonneg {n : Nat} :
    ∀ {ss : Nat → Nat → Nat} {m m' : PollutionModel},
      runTicks ss n m = .ok m' → (∀ v ∈ cellValues m.agents, 0 ≤ v) →
      ∀ v ∈ cellValues m'.agents, 0 ≤ v := by
  induction n with
  | zero =>
      intro ss m m' hr hl
      simp only [runTicks, Except.ok.injEq] at hr
      rw [← hr]
      exact hl
  | succ n ih =>
      intro ss m m' hr hl
      unfold runTicks at hr
      rcases ht : tick m (ss 0) with e | m1
      · rw [ht] at hr
        simp at hr
      · rw [ht] at hr
        exact ih hr (tick_nonneg ht hl)

theorem newModel_cellValues_zero {w h : Int} {nc nf nt : Nat} {s : Nat → Nat}
    {m : PollutionModel} (hm : newModel w h nc nf nt s = .ok m) :
    ∀ v ∈ cellValues m.agents, v = 0 := by
  unfold newModel at hm
  split at hm
  · simp at hm
  split at hm
  · simp at hm
  split at hm
  · simp at hm
  simp only [Except.ok.injEq] at hm
  rw [← hm]
  intro v hv
  unfold cellValues at hv
  rcases List.mem_filterMap.mp hv with ⟨x, hx, hfx⟩
  simp only [List.mem_append] at hx
  rcases hx with ((hx | hx) | hx) | hx
  · rcases List.mem_map.mp hx with ⟨p, _, rfl⟩
    simpa using hfx.symm
  · rcases List.mem_map.mp hx with ⟨pr, _, rfl⟩
    exact absurd hfx (by simp)
  · rcases List.mem_map.mp hx with ⟨pr, _, rfl⟩
    exact absurd hfx (by simp)
  · rcases List.mem_map.mp hx with ⟨pr, _, rfl⟩
    exact absurd hfx (by simp)

/-- C7: every `PollutionCell.pollution` starts at 0, and each operator —
sequential diffusion (an average of non-negative live values), the +10
and +20 emissions, the ×0.7 mitigation and the ×0.9 decay — preserves
non-negativity, so no run of the simulation ever produces a negative
pollution value. -/
theorem pollution_never_negative :
    (∀ (w h : Int) (nc nf nt : Nat) (s : Nat → Nat) (m : PollutionModel),
        newModel w h nc nf nt s = .ok m → ∀ v ∈ cellValues m.agents, v = 0)
    ∧ (∀ (m m' : PollutionModel) (seeds : Nat → Nat),
        tick m seeds = .ok m' → (∀ v ∈ cellValues m.agents, 0 ≤ v) →
        ∀ v ∈ cellValues m'.agents, 0 ≤ v)
    ∧ (∀ (w h : Int) (nc nf nt : Nat) (s : Nat → Nat) (m0 : PollutionModel)
        (ss : Nat → Nat → Nat) (n : Nat) (m : PollutionModel),
        newModel w h nc nf nt s = .ok m0 → runTicks ss n m0 = .ok m →
        ∀ v ∈ cellValues m.agents, 0 ≤ v) := by
  refine ⟨fun w h nc nf nt s m hm => newModel_cellValues_zero hm,
    fun m m' seeds ht hl => tick_nonneg ht hl,
    fun w h nc nf nt s m0 ss n m hm hr => runTicks_nonneg hr ?_⟩
  intro v hv
  rw [newModel_cellValues_zero hm v hv]

/-- C7 witness: a concrete 1×1 model with one cell runs one tick and its
sole pollution value stays 0, hence non-negative. -/
theorem pollution_never_negative_witness :
    (∀ v ∈ cellValues (⟨1, 1, [.cell (0, 0) 0]⟩ : PollutionModel).agents, v = 0)
    ∧ (∀ v ∈ cellValues (⟨1, 1, [.cell (0, 0) 0]⟩ : PollutionModel).agents, (0 : ℚ) ≤ v) := by
  constructor
  · exact pollution_never_negative.1 1 1 0 0 0 (fun _ => 0)
      ⟨1, 1, [.cell (0, 0) 0]⟩ (by decide)
  · refine pollution_never_negative.2.2 1 1 0 0 0 (fun _ => 0)
      ⟨1, 1, [.cell (0, 0) 0]⟩ (fun _ _ => 0) 1 ⟨1, 1, [.cell (0, 0) 0]⟩
      (by decide) ?_
    show runTicks (fun _ _ => 0) 1 ⟨1, 1, [.cell (0, 0) 0]⟩ = .ok ⟨1, 1, [.cell (0, 0) 0]⟩
    norm_num +decide [runTicks, tick, scheduleStep, stepIndices, stepAt, advancePhase,
      advanceAgent, get_neighborhood, mooreOffsets, inBounds, cellSumAt, cellValuesAt,
      List.filterMap_cons, show List.range 1 = [0] from rfl]

/-! ### Claim C10 -/

theorem set_of_getElem?_eq {α : Type _} :
    ∀ {l : List α} {k : Nat} {a : α}, l[k]? = some a → l.set k a = l := by
  intro l
  induction l with
  | nil => intro k a hk; simp at hk
  | cons x t ih =>
      intro k a hk
      cases k with
      | zero =>
          simp only [List.getElem?_cons_zero, Option.some.injEq] at hk
          rw [List.set_cons_zero, hk]
      | succ k' =>
          simp only [List.getElem?_cons_succ] at hk
          rw [List.set_cons_succ, ih hk]

theorem map_isTreeA_addPollutionAt (l : List AgentK) (q : Pos) (amt : ℚ) :
    (addPollutionAt l q amt).map isTreeA = l.map isTreeA := by
  unfold addPollutionAt
  rw [List.map_map]
  apply List.map_congr_left
  intro a _
  cases a with
  | cell p v => by_cases hp : p = q <;> simp [Function.comp, hp, isTreeA]
  | car id pos => rfl
  | factory id pos => rfl
  | tree id pos alive => rfl

theorem map_isTreeA_scalePollutionAt (l : List AgentK) (q : Pos) (c : ℚ) :
    (scalePollutionAt l q c).map isTreeA = l.map isTreeA := by
  unfold scalePollutionAt
  rw [List.map_map]
  apply List.map_congr_left
  intro a _
  cases a with
  | cell p v => by_cases hp : p = q <;> simp [Function.comp, hp, isTreeA]
  | car id pos => rfl
  | factory id pos => rfl
  | tree id pos alive => rfl

theorem map_isTreeA_set_sameKind {l : List AgentK} {k : Nat} {a b : AgentK}
    (hk : l[k]? = some a) (hab : isTreeA b = isTreeA a) :
    (l.set k b).map isTreeA = l.map isTreeA := by
  rw [List.map_set]
  have : (l.map isTreeA)[k]? = some (isTreeA b) := by
    rw [List.getElem?_map, hk, hab]
    rfl
  exact set_of_getElem?_eq this

theorem stepAt_map_isTreeA {w h : Int} {seeds : Nat → Nat} {i j : Nat}
    {agents a1 : List AgentK} {i1 : Nat}
    (hstep : stepAt w h seeds i agents j = .ok (a1, i1)) :
    a1.map isTreeA = agents.map isTreeA := by
  unfold stepAt at hstep
  split at hstep
  · simp only [Except.ok.injEq, Prod.mk.injEq] at hstep
    rw [← hstep.1]
  case _ p v heq =>
    simp only [Except.ok.injEq, Prod.mk.injEq] at hstep
    rw [← hstep.1]
    exact map_isTreeA_set_sameKind heq rfl
  case _ cid cpos heq =>
    dsimp only at hstep
    split at hstep
    · simp at hstep
    · simp only [Except.ok.injEq, Prod.mk.injEq] at hstep
      rw [← hstep.1, map_isTreeA_addPollutionAt]
      exact map_isTreeA_set_sameKind heq rfl
  case _ fid fpos heq =>
    simp only [Except.ok.injEq, Prod.mk.injEq] at hstep
    rw [← hstep.1]
    exact map_isTreeA_addPollutionAt agents fpos 20
  case _ tid tpos tal heq =>
    by_cases htal : tal = true
    · subst htal
      rw [if_pos rfl] at hstep
      simp only [Except.ok.injEq, Prod.mk.injEq] at hstep
      rw [← hstep.1]
      rw [map_isTreeA_set_sameKind
        (b := AgentK.tree tid tpos
          (!(cellValuesAt (scalePollutionAt agents tpos (7 / 10)) tpos).any
            fun v => decide (30 < v)))
        (scalePollutionAt_getElem?_tree heq tpos (7 / 10)) rfl]
      exact map_isTreeA_scalePollutionAt agents tpos (7 / 10)
    · rw [if_neg (by simpa using htal)] at hstep
      simp only [Except.ok.injEq, Prod.mk.injEq] at hstep
      rw [← hstep.1]

theorem stepIndices_map_isTreeA {w h : Int} {seeds : Nat → Nat} {ks : List Nat} :
    ∀ {i : Nat} {agents a1 : List AgentK} {i1 : Nat},
      stepIndices w h seeds ks i agents = .ok (a1, i1) →
      a1.map isTreeA = agents.map isTreeA := by
  induction ks with
  | nil =>
      intro i agents a1 i1 hstep
      simp only [stepIndices, Except.ok.injEq, Prod.mk.injEq] at hstep
      rw [← hstep.1]
  | cons j ks ih =>
      intro i agents a1 i1 hstep
      unfold stepIndices at hstep
      rcases hs : stepAt w h seeds i agents j with e | b
      · rw [hs] at hstep
        simp at hstep
      · rw [hs] at hstep
        rw [ih hstep, stepAt_map_isTreeA hs]

theorem map_isTreeA_advancePhase (l : List AgentK) :
    (advancePhase l).map isTreeA = l.map isTreeA := by
  unfold advancePhase
  rw [List.map_map]
  apply List.map_congr_left
  intro a _
  cases a <;> rfl

theorem tick_map_isTreeA {m m' : PollutionModel} {seeds : Nat → Nat}
    (ht : tick m seeds = .ok m') :
    m'.agents.map isTreeA = m.agents.map isTreeA := by
  unfold tick scheduleStep at ht
  rcases hs : stepIndices m.width m.height seeds (List.range m.agents.length) 0 m.agents
    with e | b
  · rw [hs] at ht
    simp at ht
  · rw [hs] at ht
    simp only [Except.ok.injEq] at ht
    rw [← ht]
    show (advancePhase b.1).map isTreeA = _
    rw [map_isTreeA_advancePhase]
    exact stepIndices_map_isTreeA hs

theorem runTicks_map_isTreeA {n : Nat} :
    ∀ {ss : Nat → Nat → Nat} {m m' : PollutionModel},
      runTicks ss n m = .ok m' → m'.agents.map isTreeA = m.agents.map isTreeA := by
  induction n with
  | zero =>
      intro ss m m' hr
      simp only [runTicks, Except.ok.injEq] at hr
      rw [← hr]
  | succ n ih =>
      intro ss m m' hr
      unfold runTicks at hr
      rcases ht : tick m (ss 0) with e | m1
      · rw [ht] at hr
        simp at hr
      · rw [ht] at hr
        rw [ih hr, tick_map_isTreeA ht]

theorem alive_dead_partition (l : List AgentK) :
    (l.filter isAliveTree).length + (l.filter isDeadTree).length
      = (l.filter isTreeA).length := by
  induction l with
  | nil => rfl
  | cons a t ih =>
      cases a with
      | cell p v => simpa [List.filter_cons, isAliveTree, isDeadTree, isTreeA] using ih
      | car id pos => simpa [List.filter_cons, isAliveTree, isDeadTree, isTreeA] using ih
      | factory id pos => simpa [List.filter_cons, isAliveTree, isDeadTree, isTreeA] using ih
      | tree id pos alive =>
          cases alive <;>
            · simp [List.filter_cons, isAliveTree, isDeadTree, isTreeA]
              omega

theorem length_filter_eq_of_map_eq {l l' : List AgentK} (p : AgentK → Bool)
    (h : l.map p = l'.map p) : (l.filter p).length = (l'.filter p).length := by
  rw [← List.countP_eq_length_filter, ← List.countP_eq_length_filter]
  have h1 : List.countP (fun b => b) (l.map p) = List.countP (fun b => b) (l'.map p) := by
    rw [h]
  simpa [List.countP_map, Function.comp] using h1

theorem placePositions_length {w h : Int} {s : Nat → Nat} :
    ∀ {n base : Nat} {ps : List Pos},
      placePositions w h s n base = .ok ps → ps.length = n := by
  intro n
  induction n with
  | zero =>
      intro base ps hp
      simp only [placePositions, Except.ok.injEq] at hp
      rw [← hp]
      rfl
  | succ n ih =>
      intro base ps hp
      unfold placePositions at hp
      rcases hr : randPos w h (s base) (s (base + 1)) with e | p
      · rw [hr] at hp
        simp at hp
      · rw [hr] at hp
        rcases hrest : placePositions w h s n (base + 2) with e | ps'
        · rw [hrest] at hp
          simp at hp
        · rw [hrest] at hp
          simp only [Except.ok.injEq] at hp
          rw [← hp, List.length_cons, ih hrest]

theorem newModel_tree_count {w h : Int} {nc nf nt : Nat} {s : Nat → Nat}
    {m : PollutionModel} (hm : newModel w h nc nf nt s = .ok m) :
    (m.agents.filter isTreeA).length = nt := by
  unfold newModel at hm
  split at hm
  · simp at hm
  case _ carPs hcar =>
    split at hm
    · simp at hm
    case _ facPs hfac =>
      split at hm
      · simp at hm
      case _ treePs htree =>
        simp only [Except.ok.injEq] at hm
        rw [← hm]
        show (List.filter isTreeA (_ ++ _ ++ _ ++ _)).length = nt
        rw [List.filter_append, List.filter_append, List.filter_append]
        have h1 : List.filter isTreeA ((gridPositions w h).map fun p => AgentK.cell p 0)
            = [] := by
          rw [List.filter_eq_nil_iff]
          intro a ha
          rcases List.mem_map.mp ha with ⟨p, _, rfl⟩
          simp [isTreeA]
        have h2 : List.filter isTreeA (((List.range nc).zip carPs).map
            fun pr => AgentK.car pr.1 pr.2) = [] := by
          rw [List.filter_eq_nil_iff]
          intro a ha
          rcases List.mem_map.mp ha with ⟨pr, _, rfl⟩
          simp [isTreeA]
        have h3 : List.filter isTreeA (((List.range nf).zip facPs).map
            fun pr => AgentK.factory (nc + pr.1) pr.2) = [] := by
          rw [List.filter_eq_nil_iff]
          intro a ha
          rcases List.mem_map.mp ha with ⟨pr, _, rfl⟩
          simp [isTreeA]
        have h4 : List.filter isTreeA (((List.range nt).zip treePs).map
            fun pr => AgentK.tree (nc + nf + pr.1) pr.2 true)
            = ((List.range nt).zip treePs).map fun pr => AgentK.tree (nc + nf + pr.1) pr.2 true := by
          rw [List.filter_eq_self]
          intro a ha
          rcases List.mem_map.mp ha with ⟨pr, _, rfl⟩
          rfl
        rw [h1, h2, h3, h4]
        simp [List.length_zipWith, List.zip, placePositions_length htree]

/-- C10: at every tick the alive and dead mitigator counts partition a
constant total — `tree_growth_rate + tree_death_rate` always equals the
`num_trees` supplied at construction, because trees are created only in
`__init__` and no step ever adds or removes an agent. -/
theorem mitigator_counts_partition_total (w h : Int) (nc nf nt : Nat) (s : Nat → Nat)
    (m0 : PollutionModel) (ss : Nat → Nat → Nat) (n : Nat) (m : PollutionModel)
    (hm : newModel w h nc nf nt s = .ok m0) (hr : runTicks ss n m0 = .ok m) :
    tree_growth_rate m + tree_death_rate m = nt := by
  unfold tree_growth_rate tree_death_rate
  rw [alive_dead_partition]
  rw [length_filter_eq_of_map_eq isTreeA (runTicks_map_isTreeA hr)]
  exact newModel_tree_count hm

/-- C10 witness: a 1×2 model with one tree keeps
`tree_growth_rate + tree_death_rate = 1` after one tick. -/
theorem mitigator_counts_partition_total_witness :
    tree_growth_rate ⟨1, 2, [.cell (0, 0) 0, .cell (0, 1) 0, .tree 0 (0, 0) true]⟩
      + tree_death_rate ⟨1, 2, [.cell (0, 0) 0, .cell (0, 1) 0, .tree 0 (0, 0) true]⟩ = 1 := by
  refine mitigator_counts_partition_total 1 2 0 0 1 (fun _ => 0)
    ⟨1, 2, [.cell (0, 0) 0, .cell (0, 1) 0, .tree 0 (0, 0) true]⟩
    (fun _ _ => 0) 0
    ⟨1, 2, [.cell (0, 0) 0, .cell (0, 1) 0, .tree 0 (0, 0) true]⟩
    (by decide) (by decide)

/-! ### Claim C8 -/

theorem length_filter_aliveTree (l : List AgentK) :
    (l.filter isAliveTree).length = ((treesOf l).filter fun t => t.2.2).length := by
  induction l with
  | nil => rfl
  | cons a t ih =>
      cases a with
      | cell p v => simpa [treesOf, List.filter_cons, List.filterMap_cons, isAliveTree] using ih
      | car id pos => simpa [treesOf, List.filter_cons, List.filterMap_cons, isAliveTree] using ih
      | factory id pos =>
          simpa [treesOf, List.filter_cons, List.filterMap_cons, isAliveTree] using ih
      | tree id pos alive =>
          cases alive <;>
            simpa [treesOf, List.filter_cons, List.filterMap_cons, isAliveTree] using ih

theorem length_filter_deadTree (l : List AgentK) :
    (l.filter isDeadTree).length = ((treesOf l).filter fun t => !t.2.2).length := by
  induction l with
  | nil => rfl
  | cons a t ih =>
      cases a with
      | cell p v => simpa [treesOf, List.filter_cons, List.filterMap_cons, isDeadTree] using ih
      | car id pos => simpa [treesOf, List.filter_cons, List.filterMap_cons, isDeadTree] using ih
      | factory id pos =>
          simpa [treesOf, List.filter_cons, List.filterMap_cons, isDeadTree] using ih
      | tree id pos alive =>
          cases alive <;>
            simpa [treesOf, List.filter_cons, List.filterMap_cons, isDeadTree] using ih

/-- C8: `PollutionModel.step` records exactly one metrics row, computed
from the state before the tick's mutations (so it reflects the end of
the previous tick, and on the first call the initial state):
`averagePollution` is the arithmetic mean of all cell pollution values
(0 when there are no cells), `treeGrowthRate` counts the Trees with
`alive = true` and `treeDeathRate` the Trees with `alive = false`. -/
theorem metrics_sample_pre_mutation (s : SimState) (seeds : Nat → Nat) (s' : SimState)
    (hs : modelStep s seeds = .ok s') :
    s'.history = s.history ++ [collect s.model]
    ∧ (collect s.model).averagePollution
        = (if 0 < (cellValues s.model.agents).length
            then (cellValues s.model.agents).sum / ((cellValues s.model.agents).length : ℚ)
            else 0)
    ∧ (collect s.model).treeGrowthRate
        = ((treesOf s.model.agents).filter fun t => t.2.2).length
    ∧ (collect s.model).treeDeathRate
        = ((treesOf s.model.agents).filter fun t => !t.2.2).length := by
  refine ⟨?_, rfl, length_filter_aliveTree s.model.agents, length_filter_deadTree s.model.agents⟩
  unfold modelStep at hs
  rcases ht : tick s.model seeds with e | m1
  · rw [ht] at hs
    simp at hs
  · rw [ht] at hs
    simp only [Except.ok.injEq] at hs
    rw [← hs]

/-- C8 witness: one `modelStep` on a 2×1 model with a factory appends
exactly the sample ⟨0, 0, 0⟩ of the pre-tick state. -/
theorem metrics_sample_pre_mutation_witness :
    (⟨⟨2, 1, [.cell (0, 0) 18, .cell (1, 0) 0, .factory 0 (0, 0)]⟩,
        [⟨0, 0, 0⟩]⟩ : SimState).history
      = (⟨⟨2, 1, [.cell (0, 0) 0, .cell (1, 0) 0, .factory 0 (0, 0)]⟩, []⟩ : SimState).history
        ++ [collect ⟨2, 1, [.cell (0, 0) 0, .cell (1, 0) 0, .factory 0 (0, 0)]⟩]
    ∧ (collect ⟨2, 1, [.cell (0, 0) 0, .cell (1, 0) 0, .factory 0 (0, 0)]⟩).averagePollution
        = (if 0 < (cellValues [.cell (0, 0) 0, .cell (1, 0) 0, .factory 0 (0, 0)]).length
            then (cellValues [.cell (0, 0) 0, .cell (1, 0) 0, .factory 0 (0, 0)]).sum
              / ((cellValues [.cell (0, 0) 0, .cell (1, 0) 0, .factory 0 (0, 0)]).length : ℚ)
            else 0)
    ∧ (collect ⟨2, 1, [.cell (0, 0) 0, .cell (1, 0) 0, .factory 0 (0, 0)]⟩).treeGrowthRate
        = ((treesOf [.cell (0, 0) 0, .cell (1, 0) 0, .factory 0 (0, 0)]).filter
            fun t => t.2.2).length
    ∧ (collect ⟨2, 1, [.cell (0, 0) 0, .cell (1, 0) 0, .factory 0 (0, 0)]⟩).treeDeathRate
        = ((treesOf [.cell (0, 0) 0, .cell (1, 0) 0, .factory 0 (0, 0)]).filter
            fun t => !t.2.2).length := by
  refine metrics_sample_pre_mutation
    ⟨⟨2, 1, [.cell (0, 0) 0, .cell (1, 0) 0, .factory 0 (0, 0)]⟩, []⟩ (fun _ => 0)
    ⟨⟨2, 1, [.cell (0, 0) 18, .cell (1, 0) 0, .factory 0 (0, 0)]⟩, [⟨0, 0, 0⟩]⟩ ?_
  norm_num +decide [modelStep, tick, scheduleStep, stepIndices, stepAt, advancePhase,
    advanceAgent, addPollutionAt, collect, average_pollution, tree_growth_rate,
    tree_death_rate, cellValues, cellSumAt, cellValuesAt, get_neighborhood, mooreOffsets,
    inBounds, List.filterMap_cons, show List.range 3 = [0, 1, 2] from rfl]

/-! ### Claim C2 -/

theorem predAt_lt {L : List AgentK} {pred : AgentK → Bool} {j : Nat}
    (hj : j < L.length) :
    predAt L pred j = pred (L.get ⟨j, hj⟩) := by
  unfold predAt
  rw [List.getElem?_eq_getElem hj]
  rfl

theorem predAt_append_left {A rest : List AgentK} {pred : AgentK → Bool} {j : Nat}
    (hj : j < A.length) :
    predAt (A ++ rest) pred j = pred (A.get ⟨j, hj⟩) := by
  unfold predAt
  rw [List.getElem?_append_left hj, List.getElem?_eq_getElem hj]
  rfl

theorem range'_split (s m n : Nat) :
    List.range' s (m + n) = List.range' s m ++ List.range' (s + m) n := by
  rw [Nat.add_comm m n]
  exact (List.range'_append_1 s m n).symm

theorem predAt_append_right {A rest : List AgentK} {pred : AgentK → Bool} {j : Nat} :
    predAt (A ++ rest) pred (A.length + j) = predAt rest pred j := by
  unfold predAt
  rw [List.getElem?_append_right (by omega)]
  have hj : A.length + j - A.length = j := by omega
  rw [hj]

theorem filter_window_true {L : List AgentK} {pred : AgentK → Bool} {s len : Nat}
    (hwin : ∀ j, j < len → predAt L pred (s + j) = true) :
    (List.range' s len).filter (predAt L pred) = List.range' s len := by
  rw [List.filter_eq_self]
  intro k hk
  rcases List.mem_range'.mp hk with ⟨j, hj, hkj⟩
  have h1 : k = s + j := by omega
  rw [h1]
  exact hwin j hj

theorem filter_window_false {L : List AgentK} {pred : AgentK → Bool} {s len : Nat}
    (hwin : ∀ j, j < len → predAt L pred (s + j) = false) :
    (List.range' s len).filter (predAt L pred) = [] := by
  rw [List.filter_eq_nil_iff]
  intro k hk
  rcases List.mem_range'.mp hk with ⟨j, hj, hkj⟩
  have h1 : k = s + j := by omega
  rw [h1, hwin j hj]
  simp

theorem kindIndices_of_blocks (A B C D : List AgentK)
    (hA : ∀ x ∈ A, isCellA x = true) (hB : ∀ x ∈ B, isCarA x = true)
    (hC : ∀ x ∈ C, isFactoryA x = true) (hD : ∀ x ∈ D, isTreeA x = true) :
    kindIndices (A ++ (B ++ (C ++ D))) isCellA
      ++ kindIndices (A ++ (B ++ (C ++ D))) isCarA
      ++ kindIndices (A ++ (B ++ (C ++ D))) isFactoryA
      ++ kindIndices (A ++ (B ++ (C ++ D))) isTreeA
      = List.range (A ++ (B ++ (C ++ D))).length := by
  have hwinA : ∀ (pred : AgentK → Bool), (∀ x ∈ A, pred x = true) →
      ∀ j, j < A.length → predAt (A ++ (B ++ (C ++ D))) pred (0 + j) = true := by
    intro pred hp j hj
    rw [Nat.zero_add, predAt_append_left hj]
    exact hp _ (A.get_mem _ _)
  have hwinA' : ∀ (pred : AgentK → Bool), (∀ x ∈ A, pred x = false) →
      ∀ j, j < A.length → predAt (A ++ (B ++ (C ++ D))) pred (0 + j) = false := by
    intro pred hp j hj
    rw [Nat.zero_add, predAt_append_left hj]
    exact hp _ (A.get_mem _ _)
  have hwinB : ∀ (pred : AgentK → Bool), (∀ x ∈ B, pred x = true) →
      ∀ j, j < B.length → predAt (A ++ (B ++ (C ++ D))) pred (A.length + j) = true := by
    intro pred hp j hj
    rw [predAt_append_right, predAt_append_left hj]
    exact hp _ (B.get_mem _ _)
  have hwinB' : ∀ (pred : AgentK → Bool), (∀ x ∈ B, pred x = false) →
      ∀ j, j < B.length → predAt (A ++ (B ++ (C ++ D))) pred (A.length + j) = false := by
    intro pred hp j hj
    rw [predAt_append_right, predAt_append_left hj]
    exact hp _ (B.get_mem _ _)
  have hwinC : ∀ (pred : AgentK → Bool), (∀ x ∈ C, pred x = true) →
      ∀ j, j < C.length →
        predAt (A ++ (B ++ (C ++ D))) pred (A.length + B.length + j) = true := by
    intro pred hp j hj
    have h1 : A.length + B.length + j = A.length + (B.length + j) := by omega
    rw [h1, predAt_append_right, predAt_append_right, predAt_append_left hj]
    exact hp _ (C.get_mem _ _)
  have hwinC' : ∀ (pred : AgentK → Bool), (∀ x ∈ C, pred x = false) →
      ∀ j, j < C.length →
        predAt (A ++ (B ++ (C ++ D))) pred (A.length + B.length + j) = false := by
    intro pred hp j hj
    have h1 : A.length + B.length + j = A.length + (B.length + j) := by omega
    rw [h1, predAt_append_right, predAt_append_right, predAt_append_left hj]
    exact hp _ (C.get_mem _ _)
  have hwinD : ∀ (pred : AgentK → Bool), (∀ x ∈ D, pred x = true) →
      ∀ j, j < D.length →
        predAt (A ++ (B ++ (C ++ D))) pred (A.length + B.length + C.length + j) = true := by
    intro pred hp j hj
    have h1 : A.length + B.length + C.length + j
        = A.length + (B.length + (C.length + j)) := by omega
    rw [h1, predAt_append_right, predAt_append_right, predAt_append_right, predAt_lt hj]
    exact hp _ (D.get_mem _ _)
  have hwinD' : ∀ (pred : AgentK → Bool), (∀ x ∈ D, pred x = false) →
      ∀ j, j < D.length →
        predAt (A ++ (B ++ (C ++ D))) pred (A.length + B.length + C.length + j) = false := by
    intro pred hp j hj
    have h1 : A.length + B.length + C.length + j
        = A.length + (B.length + (C.length + j)) := by omega
    rw [h1, predAt_append_right, predAt_append_right, predAt_append_right, predAt_lt hj]
    exact hp _ (D.get_mem _ _)
  have hBcell : ∀ x ∈ B, isCellA x = false := fun x hx => by
    have := hB x hx
    cases x <;> simp [isCarA, isCellA, isCarA, isFactoryA, isTreeA] at this ⊢
  have hCcell : ∀ x ∈ C, isCellA x = false := fun x hx => by
    have := hC x hx
    cases x <;> simp [isFactoryA, isCellA, isCarA, isFactoryA, isTreeA] at this ⊢
  have hDcell : ∀ x ∈ D, isCellA x = false := fun x hx => by
    have := hD x hx
    cases x <;> simp [isTreeA, isCellA, isCarA, isFactoryA, isTreeA] at this ⊢
  have hAcar : ∀ x ∈ A, isCarA x = false := fun x hx => by
    have := hA x hx
    cases x <;> simp [isCellA, isCellA, isCarA, isFactoryA, isTreeA] at this ⊢
  have hCcar : ∀ x ∈ C, isCarA x = false := fun x hx => by
    have := hC x hx
    cases x <;> simp [isFactoryA, isCellA, isCarA, isFactoryA, isTreeA] at this ⊢
  have hDcar : ∀ x ∈ D, isCarA x = false := fun x hx => by
    have := hD x hx
    cases x <;> simp [isTreeA, isCellA, isCarA, isFactoryA, isTreeA] at this ⊢
  have hAfac : ∀ x ∈ A, isFactoryA x = false := fun x hx => by
    have := hA x hx
    cases x <;> simp [isCellA, isCellA, isCarA, isFactoryA, isTreeA] at this ⊢
  have hBfac : ∀ x ∈ B, isFactoryA x = false := fun x hx => by
    have := hB x hx
    cases x <;> simp [isCarA, isCellA, isCarA, isFactoryA, isTreeA] at this ⊢
  have hDfac : ∀ x ∈ D, isFactoryA x = false := fun x hx => by
    have := hD x hx
    cases x <;> simp [isTreeA, isCellA, isCarA, isFactoryA, isTreeA] at this ⊢
  have hAtree : ∀ x ∈ A, isTreeA x = false := fun x hx => by
    have := hA x hx
    cases x <;> simp [isCellA, isCellA, isCarA, isFactoryA, isTreeA] at this ⊢
  have hBtree : ∀ x ∈ B, isTreeA x = false := fun x hx => by
    have := hB x hx
    cases x <;> simp [isCarA, isCellA, isCarA, isFactoryA, isTreeA] at this ⊢
  have hCtree : ∀ x ∈ C, isTreeA x = false := fun x hx => by
    have := hC x hx
    cases x <;> simp [isFactoryA, isCellA, isCarA, isFactoryA, isTreeA] at this ⊢
  have hsplit : List.range (A ++ (B ++ (C ++ D))).length
      = List.range' 0 A.length ++ (List.range' A.length B.length
        ++ (List.range' (A.length + B.length) C.length
          ++ List.range' (A.length + B.length + C.length) D.length)) := by
    rw [List.range_eq_range',
      show (A ++ (B ++ (C ++ D))).length
        = A.length + (B.length + (C.length + D.length)) by simp,
      range'_split 0 A.length (B.length + (C.length + D.length)), Nat.zero_add,
      range'_split A.length B.length (C.length + D.length),
      range'_split (A.length + B.length) C.length D.length]
  unfold kindIndices
  rw [hsplit]
  rw [List.filter_append, List.filter_append, List.filter_append,
    List.filter_append, List.filter_append, List.filter_append,
    List.filter_append, List.filter_append, List.filter_append,
    List.filter_append, List.filter_append, List.filter_append]
  rw [filter_window_true (hwinA _ hA), filter_window_false (hwinB' _ hBcell),
    filter_window_false (hwinC' _ hCcell), filter_window_false (hwinD' _ hDcell),
    filter_window_false (hwinA' _ hAcar), filter_window_true (hwinB _ hB),
    filter_window_false (hwinC' _ hCcar), filter_window_false (hwinD' _ hDcar),
    filter_window_false (hwinA' _ hAfac), filter_window_false (hwinB' _ hBfac),
    filter_window_true (hwinC _ hC), filter_window_false (hwinD' _ hDfac),
    filter_window_false (hwinA' _ hAtree), filter_window_false (hwinB' _ hBtree),
    filter_window_false (hwinC' _ hCtree), filter_window_true (hwinD _ hD)]
  simp only [List.append_nil, List.nil_append, List.append_assoc]

/-- C2: for every constructed model, iterating `step()` over the single
registration-order agent list (what `SimultaneousActivation` does) is
exactly the kind-major protocol of the spec — all `PollutionCell`s step
first, then every Car, then every Factory, then every Tree, each kind in
registration order with every mutation immediately visible to the agents
processed later in the same tick — and the ×0.9 decay (`advance`) is
applied to every cell only after that whole sequence. -/
theorem tick_is_kind_major (w h : Int) (nc nf nt : Nat) (s : Nat → Nat)
    (m : PollutionModel) (hm : newModel w h nc nf nt s = .ok m) :
    (kindIndices m.agents isCellA ++ kindIndices m.agents isCarA
      ++ kindIndices m.agents isFactoryA ++ kindIndices m.agents isTreeA
      = List.range m.agents.length)
    ∧ (∀ seeds : Nat → Nat,
        scheduleStep m.width m.height seeds m.agents
          = kindMajorStep m.width m.height seeds m.agents)
    ∧ (∀ l : List AgentK,
        cellValues (advancePhase l) = (cellValues l).map (fun v => v * (9 / 10))) := by
  have hconcat : kindIndices m.agents isCellA ++ kindIndices m.agents isCarA
      ++ kindIndices m.agents isFactoryA ++ kindIndices m.agents isTreeA
      = List.range m.agents.length := by
    unfold newModel at hm
    split at hm
    · simp at hm
    case _ carPs hcar =>
      split at hm
      · simp at hm
      case _ facPs hfac =>
        split at hm
        · simp at hm
        case _ treePs htree =>
          simp only [Except.ok.injEq] at hm
          have hag : m.agents
              = ((gridPositions w h).map fun p => AgentK.cell p 0)
                ++ ((((List.range nc).zip carPs).map fun pr => AgentK.car pr.1 pr.2)
                  ++ ((((List.range nf).zip facPs).map
                        fun pr => AgentK.factory (nc + pr.1) pr.2)
                    ++ (((List.range nt).zip treePs).map
                        fun pr => AgentK.tree (nc + nf + pr.1) pr.2 true))) := by
            rw [← hm]
            simp [List.append_assoc]
          rw [hag]
          refine kindIndices_of_blocks _ _ _ _ ?_ ?_ ?_ ?_
          · intro x hx
            rcases List.mem_map.mp hx with ⟨p, _, rfl⟩
            rfl
          · intro x hx
            rcases List.mem_map.mp hx with ⟨pr, _, rfl⟩
            rfl
          · intro x hx
            rcases List.mem_map.mp hx with ⟨pr, _, rfl⟩
            rfl
          · intro x hx
            rcases List.mem_map.mp hx with ⟨pr, _, rfl⟩
            rfl
  refine ⟨hconcat, ?_, cellValues_advancePhase⟩
  intro seeds
  unfold scheduleStep kindMajorStep
  rw [hconcat]

/-- C2 witness: the kind-major decomposition holds concretely for a
2×1 model with one car, one factory and one tree. -/
theorem tick_is_kind_major_witness :
    (kindIndices [AgentK.cell (0, 0) 0, .cell (1, 0) 0, .car 0 (0, 0),
        .factory 1 (0, 0), .tree 2 (0, 0) true] isCellA
      ++ kindIndices [AgentK.cell (0, 0) 0, .cell (1, 0) 0, .car 0 (0, 0),
        .factory 1 (0, 0), .tree 2 (0, 0) true] isCarA
      ++ kindIndices [AgentK.cell (0, 0) 0, .cell (1, 0) 0, .car 0 (0, 0),
        .factory 1 (0, 0), .tree 2 (0, 0) true] isFactoryA
      ++ kindIndices [AgentK.cell (0, 0) 0, .cell (1, 0) 0, .car 0 (0, 0),
        .factory 1 (0, 0), .tree 2 (0, 0) true] isTreeA
      = List.range 5)
    ∧ (∀ seeds : Nat → Nat,
        scheduleStep 2 1 seeds [AgentK.cell (0, 0) 0, .cell (1, 0) 0, .car 0 (0, 0),
            .factory 1 (0, 0), .tree 2 (0, 0) true]
          = kindMajorStep 2 1 seeds [AgentK.cell (0, 0) 0, .cell (1, 0) 0, .car 0 (0, 0),
            .factory 1 (0, 0), .tree 2 (0, 0) true]) := by
  have h := tick_is_kind_major 2 1 1 1 1 (fun _ => 0)
    ⟨2, 1, [AgentK.cell (0, 0) 0, .cell (1, 0) 0, .car 0 (0, 0),
      .factory 1 (0, 0), .tree 2 (0, 0) true]⟩ (by decide)
  exact ⟨h.1, h.2.1⟩

end PollutionMAS
